import Mathlib

/-!
Verification of the SLIP-10 hierarchical deterministic key derivation crate
(`src/lib.rs`) against its natural-language specification.

Modelling conventions (shallow embedding):
* Bytes are `Nat` values; byte strings are `List Nat`.
* The curve is a prime-order group of order `n`.  Scalars are `ZMod n`.
  The point group of such a curve is cyclic of order `n`, so points are
  modelled as `ZMod n` as well, with point addition being `+`, the group
  identity being `0`, and multiplication of the generator by a scalar `s`
  being `g * s` for a fixed group element `g` (the discrete logarithm of the
  generator in the chosen coordinatization).  Compressed point serialization
  (`Point::to_bytes(true)`) is an external collaborator and is modelled as an
  abstract function parameter `ptBytes`.
* HMAC-SHA512 is, per the spec, an external collaborator used as a black box
  `hmac(key, message) -> 64 bytes`; it is modelled as an abstract function
  parameter `hmac : List Nat → List Nat → List Nat`.
* The rejection-sampling loops of `derive_master_key` and `calculate_shift`
  have no iteration bound in the source; they are embedded as fuel-indexed
  recursions returning `Option`, where `none` means the fuel ran out.  Every
  property proved below is uniform in the fuel.
-/

namespace Slip10

/-- Big-endian interpretation of a byte string as a natural number. -/
def beVal (bs : List Nat) : Nat := bs.foldl (fun acc b => acc * 256 + b) 0

/-- Serialization of a natural number as `k` big-endian bytes
(zero-padded on the left), as done by `to_be_bytes` in the source. -/
def toBeBytes (k v : Nat) : List Nat :=
  (List.range k).map (fun j => v / 256 ^ (k - 1 - j) % 256)

/-- `Scalar::<E>::from_be_bytes` on a 32-byte slice: succeeds exactly when the
big-endian value of the bytes lies below the curve order `n`, returning that
value as a scalar. -/
def scalarFromBe (n : Nat) (bs : List Nat) : Option (ZMod n) :=
  if beVal bs < n then some ((beVal bs : Nat) : ZMod n) else none

/-- Extended public key: a curve point plus a chain code (`ExtendedPublicKey`). -/
structure ExtendedPublicKey (n : Nat) where
  public_key : ZMod n
  chain_code : List Nat
deriving DecidableEq

/-- Extended secret key: a secret scalar plus a chain code (`ExtendedSecretKey`). -/
structure ExtendedSecretKey (n : Nat) where
  secret_key : ZMod n
  chain_code : List Nat
deriving DecidableEq

/-- Pair of extended secret and public keys (`ExtendedKeyPair`). -/
structure ExtendedKeyPair (n : Nat) where
  public_key : ExtendedPublicKey n
  secret_key : ExtendedSecretKey n
deriving DecidableEq

/-- A shift applicable to a parent key to obtain a child key (`DerivedShift`). -/
structure DerivedShift (n : Nat) where
  shift : ZMod n
  child_public_key : ExtendedPublicKey n
deriving DecidableEq

/-- `From<&ExtendedSecretKey> for ExtendedPublicKey`: the public key is the
generator times the secret scalar, with the same chain code. -/
def pubOfSecret (n : Nat) (g : ZMod n) (sk : ExtendedSecretKey n) :
    ExtendedPublicKey n :=
  { public_key := g * sk.secret_key, chain_code := sk.chain_code }

/-- `From<ExtendedSecretKey> for ExtendedKeyPair`: derives the public half. -/
def keyPairFrom (n : Nat) (g : ZMod n) (sk : ExtendedSecretKey n) :
    ExtendedKeyPair n :=
  { public_key := pubOfSecret n g sk, secret_key := sk }

/-- `ExtendedKeyPair::chain_code`: returns the public half's chain code. -/
def chainCodeOf (n : Nat) (kp : ExtendedKeyPair n) : List Nat :=
  kp.public_key.chain_code

/-- The constant `H = 2^31`, beginning of hardened child indexes. -/
def H : Nat := 2 ^ 31

/-- Child index in range `[2^31, 2^32)` (`HardenedIndex`). -/
structure HardenedIndex where
  val : Nat
deriving DecidableEq

/-- Child index in range `[0, 2^31)` (`NonHardenedIndex`). -/
structure NonHardenedIndex where
  val : Nat
deriving DecidableEq

/-- Child index, hardened or not (`ChildIndex`). -/
inductive ChildIndex where
  | Hardened (i : HardenedIndex)
  | NonHardened (i : NonHardenedIndex)
deriving DecidableEq

/-- `Deref` impl for `HardenedIndex`: the underlying `u32`. -/
def HardenedIndex.deref (i : HardenedIndex) : Nat := i.val

/-- `Deref` impl for `NonHardenedIndex`: the underlying `u32`. -/
def NonHardenedIndex.deref (i : NonHardenedIndex) : Nat := i.val

/-- `Deref` impl for `ChildIndex`: the underlying `u32` of either variant. -/
def ChildIndex.deref : ChildIndex → Nat
  | .Hardened i => i.deref
  | .NonHardened i => i.deref

/-- `HardenedIndex::MIN = 2^31`. -/
def HardenedIndex.MIN : HardenedIndex := ⟨H⟩

/-- `HardenedIndex::MAX = u32::MAX = 2^32 - 1`. -/
def HardenedIndex.MAX : HardenedIndex := ⟨2 ^ 32 - 1⟩

/-- `NonHardenedIndex::MIN = 0`. -/
def NonHardenedIndex.MIN : NonHardenedIndex := ⟨0⟩

/-- `NonHardenedIndex::MAX = 2^31 - 1`. -/
def NonHardenedIndex.MAX : NonHardenedIndex := ⟨H - 1⟩

/-- `From<u32> for ChildIndex`: values `H..` are hardened, the rest are not.
The `u32` is modelled as a `Nat` (callers below restrict to `v < 2^32`). -/
def ChildIndex.ofU32 (value : Nat) : ChildIndex :=
  if H ≤ value then .Hardened ⟨value⟩ else .NonHardened ⟨value⟩

/-- Modelled from the spec: the error type `errors::InvalidLength` (the
`errors` module's source file is not included in the crate sources given);
per the spec it is a unit-like marker for a seed outside `[16, 64]` bytes. -/
inductive InvalidLength where
  | invalidLength
deriving DecidableEq

/-- Modelled from the spec: the error type `errors::OutOfRange`, a unit-like
marker for an integer in the wrong index half. -/
inductive OutOfRange where
  | outOfRange
deriving DecidableEq

/-- `TryFrom<u32> for HardenedIndex`: classify, then accept only `Hardened`. -/
def HardenedIndex.tryFromU32 (value : Nat) :
    Except OutOfRange HardenedIndex :=
  match ChildIndex.ofU32 value with
  | .Hardened v => .ok v
  | _ => .error .outOfRange

/-- `TryFrom<u32> for NonHardenedIndex`: classify, then accept only
`NonHardened`. -/
def NonHardenedIndex.tryFromU32 (value : Nat) :
    Except OutOfRange NonHardenedIndex :=
  match ChildIndex.ofU32 value with
  | .NonHardened v => .ok v
  | _ => .error .outOfRange

/-- Curves supported by SLIP-10 (`CurveType`). -/
inductive CurveType where
  | Secp256k1
  | Secp256r1
deriving DecidableEq

/-- The per-curve HMAC personalization string chosen by `derive_master_key`. -/
def curveKeyString : CurveType → String
  | .Secp256k1 => "Bitcoin seed"
  | .Secp256r1 => "Nist256p1 seed"

/-- ASCII bytes of a string (`str::as_bytes` for the ASCII literals used). -/
def strBytes (s : String) : List Nat := s.toList.map Char.toNat

/-- The rejection-sampling loop of `derive_master_key`, with fuel.  One
iteration splits the digest `i` into `i_left = i[..32]` and
`i_right = i[32..]`, accepts when `i_left` parses as a non-zero scalar, and
otherwise re-keys the digest as `hmac(key, i)`. -/
def masterLoop (n : Nat) (hmac : List Nat → List Nat → List Nat)
    (key : List Nat) : Nat → List Nat → Option (ExtendedSecretKey n)
  | 0, _ => none
  | fuel + 1, i =>
    match scalarFromBe n (i.take 32) with
    | some sk =>
      if sk = 0 then
        masterLoop n hmac key fuel (hmac key i)
      else
        some { secret_key := sk, chain_code := (i.drop 32).take 32 }
    | none => masterLoop n hmac key fuel (hmac key i)

/-- `derive_master_key`: validates the seed length, selects the per-curve
HMAC key, computes the initial digest `hmac(key, seed)` and runs the
rejection-sampling loop. -/
def derive_master_key (n : Nat) (hmac : List Nat → List Nat → List Nat)
    (fuel : Nat) (curve_type : CurveType) (seed : List Nat) :
    Except InvalidLength (Option (ExtendedSecretKey n)) :=
  if ¬ (16 ≤ seed.length ∧ seed.length ≤ 64) then
    .error .invalidLength
  else
    let key := strBytes (curveKeyString curve_type)
    .ok (masterLoop n hmac key fuel (hmac key seed))

/-- `calculate_shift`: the shared rejection-sampling loop of child
derivation, with fuel.  One iteration splits the digest, accepts when
`i_left` parses as a scalar (zero allowed) and the candidate child public key
`parent + g * shift` is not the group identity, and otherwise re-keys the
digest as `hmac(key, 0x01 || i_right || be4(child_index))`. -/
def calculate_shift (n : Nat) (g : ZMod n)
    (hmac : List Nat → List Nat → List Nat) (key : List Nat)
    (parent_public_key : ExtendedPublicKey n) (child_index : Nat) :
    Nat → List Nat → Option (DerivedShift n)
  | 0, _ => none
  | fuel + 1, i =>
    match scalarFromBe n (i.take 32) with
    | some shift =>
      let child_pk := parent_public_key.public_key + g * shift
      if child_pk = 0 then
        calculate_shift n g hmac key parent_public_key child_index fuel
          (hmac key (0x01 :: ((i.drop 32).take 32 ++ toBeBytes 4 child_index)))
      else
        some { shift := shift,
               child_public_key :=
                 { public_key := child_pk,
                   chain_code := (i.drop 32).take 32 } }
    | none =>
      calculate_shift n g hmac key parent_public_key child_index fuel
        (hmac key (0x01 :: ((i.drop 32).take 32 ++ toBeBytes 4 child_index)))

/-- `derive_hardened_shift`: HMAC keyed by the parent's chain code, initial
message `0x00 || be32(parent secret scalar) || be4(index)`, then the shared
loop with the parent's public key and the raw index. -/
def derive_hardened_shift (n : Nat) (g : ZMod n)
    (hmac : List Nat → List Nat → List Nat) (fuel : Nat)
    (parent_key : ExtendedKeyPair n) (child_index : HardenedIndex) :
    Option (DerivedShift n) :=
  let key := chainCodeOf n parent_key
  let i := hmac key
    (0x00 :: (toBeBytes 32 (parent_key.secret_key.secret_key).val ++
      toBeBytes 4 child_index.deref))
  calculate_shift n g hmac key parent_key.public_key child_index.deref fuel i

/-- `derive_public_shift`: HMAC keyed by the parent's chain code, initial
message `compressed(parent public key) || be4(index)`, then the shared loop
with the same parent public key and the raw index. -/
def derive_public_shift (n : Nat) (g : ZMod n) (ptBytes : ZMod n → List Nat)
    (hmac : List Nat → List Nat → List Nat) (fuel : Nat)
    (parent_public_key : ExtendedPublicKey n)
    (child_index : NonHardenedIndex) : Option (DerivedShift n) :=
  let key := parent_public_key.chain_code
  let i := hmac key
    (ptBytes parent_public_key.public_key ++ toBeBytes 4 child_index.deref)
  calculate_shift n g hmac key parent_public_key child_index.deref fuel i

/-- The combination step at the end of `derive_child_key_pair`: the child
secret scalar is `parent.secret_key + shift` (addition in `ZMod n`, i.e.
modulo the curve order), the chain code is the shift's
`child_public_key.chain_code`, and the public half is the shift's
`child_public_key`, taken as-is. -/
def combineShift (n : Nat) (parent_key : ExtendedKeyPair n)
    (shift : DerivedShift n) : ExtendedKeyPair n :=
  { secret_key :=
      { secret_key := parent_key.secret_key.secret_key + shift.shift,
        chain_code := shift.child_public_key.chain_code },
    public_key := shift.child_public_key }

/-- `derive_child_key_pair`: selects the hardened or public shift by the
index variant, then combines it with the parent secret key. -/
def derive_child_key_pair (n : Nat) (g : ZMod n)
    (ptBytes : ZMod n → List Nat) (hmac : List Nat → List Nat → List Nat)
    (fuel : Nat) (parent_key : ExtendedKeyPair n)
    (child_index : ChildIndex) : Option (ExtendedKeyPair n) :=
  match (match child_index with
    | .Hardened i => derive_hardened_shift n g hmac fuel parent_key i
    | .NonHardened i =>
        derive_public_shift n g ptBytes hmac fuel parent_key.public_key i)
  with
  | none => none
  | some shift => some (combineShift n parent_key shift)

/-- `derive_child_public_key`: the public-shift result's child public key. -/
def derive_child_public_key (n : Nat) (g : ZMod n)
    (ptBytes : ZMod n → List Nat) (hmac : List Nat → List Nat → List Nat)
    (fuel : Nat) (parent_public_key : ExtendedPublicKey n)
    (child_index : NonHardenedIndex) : Option (ExtendedPublicKey n) :=
  (derive_public_shift n g ptBytes hmac fuel parent_public_key
    child_index).map (fun s => s.child_public_key)

/-- Spec-side formulation of the master-key loop (one claim compares the
source embedding `masterLoop` against this).  Following the spec's words:
split the digest into `I_L = digest[0:32]` and `I_R = digest[32:64]`, accept
iff `I_L` is a valid big-endian scalar, i.e. its value lies in
`[0, curve_order)`, and is non-zero; on rejection recompute
`digest = hmac(key, digest)` with the full 64-byte previous digest and the
same key, and repeat. -/
def masterLoopSpec (n : Nat) (hmac : List Nat → List Nat → List Nat)
    (key : List Nat) : Nat → List Nat → Option (ExtendedSecretKey n)
  | 0, _ => none
  | fuel + 1, digest =>
    if beVal (digest.take 32) < n ∧ beVal (digest.take 32) ≠ 0 then
      some { secret_key := ((beVal (digest.take 32) : Nat) : ZMod n),
             chain_code := (digest.drop 32).take 32 }
    else
      masterLoopSpec n hmac key fuel (hmac key digest)

/-- Spec-side formulation of `derive_master_key`: length precondition, HMAC
key selected by curve type, initial digest `hmac(key, seed)`, then the
spec-side master loop. -/
def deriveMasterKeySpec (n : Nat) (hmac : List Nat → List Nat → List Nat)
    (fuel : Nat) (curve_type : CurveType) (seed : List Nat) :
    Except InvalidLength (Option (ExtendedSecretKey n)) :=
  if 16 ≤ seed.length ∧ seed.length ≤ 64 then
    .ok (masterLoopSpec n hmac (strBytes (curveKeyString curve_type)) fuel
      (hmac (strBytes (curveKeyString curve_type)) seed))
  else
    .error .invalidLength

/-- Spec-side formulation of the shared shift-calculation loop: split the
digest into `I_L` and `I_R`, accept iff `I_L` is a valid big-endian scalar
value below the curve order (zero allowed) and the candidate child public
key `parent + generator * I_L` is not the group identity; on rejection
recompute `digest = hmac(key, 0x01 || I_R || be4(child_index))` and retry. -/
def calculateShiftSpec (n : Nat) (g : ZMod n)
    (hmac : List Nat → List Nat → List Nat) (key : List Nat)
    (parent_public_key : ExtendedPublicKey n) (child_index : Nat) :
    Nat → List Nat → Option (DerivedShift n)
  | 0, _ => none
  | fuel + 1, digest =>
    if beVal (digest.take 32) < n ∧
        parent_public_key.public_key +
          g * ((beVal (digest.take 32) : Nat) : ZMod n) ≠ 0 then
      some { shift := ((beVal (digest.take 32) : Nat) : ZMod n),
             child_public_key :=
               { public_key := parent_public_key.public_key +
                   g * ((beVal (digest.take 32) : Nat) : ZMod n),
                 chain_code := (digest.drop 32).take 32 } }
    else
      calculateShiftSpec n g hmac key parent_public_key child_index fuel
        (hmac key
          (0x01 :: ((digest.drop 32).take 32 ++ toBeBytes 4 child_index)))

/-- The `ExtendedKeyPair` invariant from the spec: the public point is the
generator times the secret scalar, and both halves carry the same chain
code. -/
def pairInvariant (n : Nat) (g : ZMod n) (kp : ExtendedKeyPair n) : Prop :=
  kp.public_key.public_key = g * kp.secret_key.secret_key ∧
  kp.public_key.chain_code = kp.secret_key.chain_code

instance (n : Nat) (g : ZMod n) (kp : ExtendedKeyPair n) :
    Decidable (pairInvariant n g kp) := by
  unfold pairInvariant
  infer_instance

/-- Concrete HMAC stand-in used to instantiate the abstract collaborator in
concrete evaluations: a constant 64-byte digest whose left half has value 1
and whose right half has value 2. -/
def hmacA : List Nat → List Nat → List Nat :=
  fun _ _ => toBeBytes 32 1 ++ toBeBytes 32 2

/-- Concrete compressed-point serializer stand-in for concrete evaluations. -/
def ptBytesA : ZMod 5 → List Nat := fun p => 2 :: toBeBytes 32 p.val

/-- A concrete 16-byte seed. -/
def seedA : List Nat := List.replicate 16 7

/-- A concrete chain code. -/
def chainA : List Nat := toBeBytes 32 3

/-- A concrete extended key pair over the order-5 model curve, satisfying
the key-pair invariant for generator coordinate 1. -/
def pairA : ExtendedKeyPair 5 :=
  { public_key := { public_key := 1, chain_code := chainA },
    secret_key := { secret_key := 1, chain_code := chainA } }

/-- The child key pair obtained from `pairA` at non-hardened index 5 under
`hmacA` and `ptBytesA`. -/
def childA : ExtendedKeyPair 5 :=
  { public_key := { public_key := 2, chain_code := toBeBytes 32 2 },
    secret_key := { secret_key := 2, chain_code := toBeBytes 32 2 } }

/-- A natural number below the modulus casts to zero in `ZMod n` only if it
is zero. -/
theorem natCast_eq_zero_iff_of_lt (n a : Nat) (h : a < n) :
    ((a : ZMod n) = 0) ↔ a = 0 := by
  rw [ZMod.natCast_zmod_eq_zero_iff_dvd]
  exact ⟨fun hd => Nat.eq_zero_of_dvd_of_lt hd h, fun h0 => h0 ▸ dvd_zero n⟩

/-- The source master loop agrees with the spec-side master loop. -/
theorem masterLoop_eq_spec (n : Nat)
    (hmac : List Nat → List Nat → List Nat) (key : List Nat) :
    ∀ fuel digest, masterLoop n hmac key fuel digest =
      masterLoopSpec n hmac key fuel digest := by
  intro fuel
  induction fuel with
  | zero => intro digest; rfl
  | succ f ih =>
    intro digest
    simp only [masterLoop, masterLoopSpec, scalarFromBe]
    by_cases hlt : beVal (digest.take 32) < n
    · by_cases hz : beVal (digest.take 32) = 0
      · have hcast : ((beVal (digest.take 32) : Nat) : ZMod n) = 0 :=
          (natCast_eq_zero_iff_of_lt n _ hlt).mpr hz
        have hn : 0 < n := hz ▸ hlt
        simp [hlt, hz, hcast, hn, ih]
      · have hcast : ¬ ((beVal (digest.take 32) : Nat) : ZMod n) = 0 :=
          fun hc => hz ((natCast_eq_zero_iff_of_lt n _ hlt).mp hc)
        simp [hlt, hz, hcast]
    · simp [hlt, ih]

/-- The source shift loop agrees with the spec-side shift loop. -/
theorem calculate_shift_eq_spec (n : Nat) (g : ZMod n)
    (hmac : List Nat → List Nat → List Nat) (key : List Nat)
    (parent_public_key : ExtendedPublicKey n) (child_index : Nat) :
    ∀ fuel digest,
      calculate_shift n g hmac key parent_public_key child_index fuel
          digest =
        calculateShiftSpec n g hmac key parent_public_key child_index fuel
          digest := by
  intro fuel
  induction fuel with
  | zero => intro digest; rfl
  | succ f ih =>
    intro digest
    simp only [calculate_shift, calculateShiftSpec, scalarFromBe]
    by_cases hlt : beVal (digest.take 32) < n
    · by_cases hz : parent_public_key.public_key +
          g * ((beVal (digest.take 32) : Nat) : ZMod n) = 0
      · simp [hlt, hz, ih]
      · simp [hlt, hz]
    · simp [hlt, ih]

/-- Any shift accepted by `calculate_shift` satisfies: the child public key
equals the parent public point plus the generator times the shift, and is
not the group identity. -/
theorem calculate_shift_some (n : Nat) (g : ZMod n)
    (hmac : List Nat → List Nat → List Nat) (key : List Nat)
    (parent_public_key : ExtendedPublicKey n) (child_index : Nat) :
    ∀ fuel digest s,
      calculate_shift n g hmac key parent_public_key child_index fuel
          digest = some s →
        s.child_public_key.public_key =
            parent_public_key.public_key + g * s.shift ∧
          s.child_public_key.public_key ≠ 0 := by
  intro fuel
  induction fuel with
  | zero => intro digest s h; simp [calculate_shift] at h
  | succ f ih =>
    intro digest s h
    simp only [calculate_shift, scalarFromBe] at h
    by_cases hlt : beVal (digest.take 32) < n
    · simp only [hlt, if_pos] at h
      by_cases hz : parent_public_key.public_key +
          g * ((beVal (digest.take 32) : Nat) : ZMod n) = 0
      · simp only [hz, if_pos] at h
        exact ih _ s h
      · simp only [hz, if_neg, not_false_iff] at h
        cases h
        exact ⟨rfl, hz⟩
    · simp only [hlt, if_neg, not_false_iff] at h
      exact ih _ s h

/-- Any secret key accepted by the master loop has a non-zero scalar. -/
theorem masterLoop_some (n : Nat) (hmac : List Nat → List Nat → List Nat)
    (key : List Nat) :
    ∀ fuel digest esk, masterLoop n hmac key fuel digest = some esk →
      esk.secret_key ≠ 0 := by
  intro fuel
  induction fuel with
  | zero => intro digest esk h; simp [masterLoop] at h
  | succ f ih =>
    intro digest esk h
    simp only [masterLoop, scalarFromBe] at h
    by_cases hlt : beVal (digest.take 32) < n
    · simp only [hlt, if_pos] at h
      by_cases hz : ((beVal (digest.take 32) : Nat) : ZMod n) = 0
      · simp only [hz, if_pos] at h
        exact ih _ esk h
      · simp only [hz, if_neg, not_false_iff] at h
        cases h
        exact hz
    · simp only [hlt, if_neg, not_false_iff] at h
      exact ih _ esk h

/-- C1: for every curve type and every seed of length in `[16, 64]`,
`derive_master_key` computes `digest = hmac_sha512(key, seed)` with key
"Bitcoin seed" (Secp256k1) resp. "Nist256p1 seed" (Secp256r1), splits the
digest into `I_L = digest[0:32]` and `I_R = digest[32:64]`, accepts iff
`I_L` is a valid big-endian scalar in `[0, curve_order)` that is non-zero,
returning `{ secret_key := I_L, chain_code := I_R }`, and on rejection
recomputes `digest = hmac_sha512(key, previous 64-byte digest)` with the
same key and repeats — i.e. it agrees with the spec-side model
`deriveMasterKeySpec`, whose HMAC keys are the stated ASCII strings. -/
theorem derive_master_key_follows_spec (n : Nat)
    (hmac : List Nat → List Nat → List Nat) (curve_type : CurveType)
    (seed : List Nat) (fuel : Nat)
    (h1 : 16 ≤ seed.length) (h2 : seed.length ≤ 64) :
    derive_master_key n hmac fuel curve_type seed =
        deriveMasterKeySpec n hmac fuel curve_type seed ∧
      strBytes (curveKeyString CurveType.Secp256k1) =
        [66, 105, 116, 99, 111, 105, 110, 32, 115, 101, 101, 100] ∧
      strBytes (curveKeyString CurveType.Secp256r1) =
        [78, 105, 115, 116, 50, 53, 54, 112, 49, 32, 115, 101, 101, 100] := by
  refine ⟨?_, by decide, by decide⟩
  have h : 16 ≤ seed.length ∧ seed.length ≤ 64 := ⟨h1, h2⟩
  simp [derive_master_key, deriveMasterKeySpec, h, masterLoop_eq_spec]

/-- Witness for C1 at a concrete order, HMAC and 16-byte seed. -/
theorem derive_master_key_follows_spec_witness :
    derive_master_key 5 hmacA 1 CurveType.Secp256k1 seedA =
        deriveMasterKeySpec 5 hmacA 1 CurveType.Secp256k1 seedA ∧
      strBytes (curveKeyString CurveType.Secp256k1) =
        [66, 105, 116, 99, 111, 105, 110, 32, 115, 101, 101, 100] ∧
      strBytes (curveKeyString CurveType.Secp256r1) =
        [78, 105, 115, 116, 50, 53, 54, 112, 49, 32, 115, 101, 101, 100] :=
  derive_master_key_follows_spec 5 hmacA CurveType.Secp256k1 seedA 1
    (by decide) (by decide)

/-- C2: for every HMAC key, parent public key, child index and digest, the
shared shift-calculation loop `calculate_shift` splits the digest into
`I_L = digest[0:32]` and `I_R = digest[32:64]`, accepts iff `I_L` parses as
a valid scalar (zero allowed) and the candidate child public key
`parent_public_key + generator * I_L` is not the group identity, returning
`shift = I_L` and `child_public_key = { child_pk, I_R }`, and on rejection
recomputes `digest = hmac(key, 0x01 || I_R || be4(child_index))` and
retries — i.e. it agrees with the spec-side model `calculateShiftSpec`. -/
theorem calculate_shift_follows_spec (n : Nat) (g : ZMod n)
    (hmac : List Nat → List Nat → List Nat) (key : List Nat)
    (parent_public_key : ExtendedPublicKey n) (child_index : Nat)
    (fuel : Nat) (digest : List Nat) :
    calculate_shift n g hmac key parent_public_key child_index fuel digest =
      calculateShiftSpec n g hmac key parent_public_key child_index fuel
        digest :=
  calculate_shift_eq_spec n g hmac key parent_public_key child_index fuel
    digest

/-- C3: `derive_child_key_pair` returns the parent secret key plus the
shift (addition in `ZMod n`, i.e. modulo the curve order) with the shift's
child chain code and, as public half, exactly the shift's
`child_public_key`; the shift comes from the hardened path when the index's
high bit is set (`H ≤ v`) and from the non-hardened path otherwise. -/
theorem derive_child_key_pair_follows_spec (n : Nat) (g : ZMod n)
    (ptBytes : ZMod n → List Nat) (hmac : List Nat → List Nat → List Nat)
    (fuel : Nat) (parent_key : ExtendedKeyPair n) :
    (∀ i : HardenedIndex,
      derive_child_key_pair n g ptBytes hmac fuel parent_key
          (.Hardened i) =
        (derive_hardened_shift n g hmac fuel parent_key i).map
          (combineShift n parent_key)) ∧
    (∀ i : NonHardenedIndex,
      derive_child_key_pair n g ptBytes hmac fuel parent_key
          (.NonHardened i) =
        (derive_public_shift n g ptBytes hmac fuel parent_key.public_key
            i).map (combineShift n parent_key)) ∧
    (∀ v : Nat, H ≤ v → ChildIndex.ofU32 v = .Hardened ⟨v⟩) ∧
    (∀ v : Nat, v < H → ChildIndex.ofU32 v = .NonHardened ⟨v⟩) := by
  refine ⟨?_, ?_, ?_, ?_⟩
  · intro i
    cases h : derive_hardened_shift n g hmac fuel parent_key i <;>
      simp [derive_child_key_pair, h]
  · intro i
    cases h : derive_public_shift n g ptBytes hmac fuel
        parent_key.public_key i <;>
      simp [derive_child_key_pair, h]
  · intro v hv
    simp [ChildIndex.ofU32, hv]
  · intro v hv
    simp [ChildIndex.ofU32, Nat.not_le.mpr hv]

/-- Witness for C3 at concrete inputs on both sides of the boundary. -/
theorem derive_child_key_pair_follows_spec_witness :
    ChildIndex.ofU32 (2 ^ 31) = .Hardened ⟨2 ^ 31⟩ ∧
      ChildIndex.ofU32 5 = .NonHardened ⟨5⟩ ∧
      derive_child_key_pair 5 1 ptBytesA hmacA 1 pairA
          (.NonHardened ⟨5⟩) =
        (derive_public_shift 5 1 ptBytesA hmacA 1 pairA.public_key
            ⟨5⟩).map (combineShift 5 pairA) :=
  ⟨(derive_child_key_pair_follows_spec 5 1 ptBytesA hmacA 1 pairA).2.2.1
      (2 ^ 31) (by decide),
   (derive_child_key_pair_follows_spec 5 1 ptBytesA hmacA 1 pairA).2.2.2
      5 (by decide),
   (derive_child_key_pair_follows_spec 5 1 ptBytesA hmacA 1 pairA).2.1 ⟨5⟩⟩

/-- C4: for every key pair satisfying the `ExtendedKeyPair` invariant and
every non-hardened index, deriving the child public key from the pair's
public half yields exactly the public half of the derived child key pair
(same curve point and same chain code). -/
theorem pub_secret_consistency (n : Nat) (g : ZMod n)
    (ptBytes : ZMod n → List Nat) (hmac : List Nat → List Nat → List Nat)
    (fuel : Nat) (pair : ExtendedKeyPair n) (i : NonHardenedIndex)
    (_hinv : pairInvariant n g pair) :
    (derive_child_key_pair n g ptBytes hmac fuel pair
        (.NonHardened i)).map (fun kp => kp.public_key) =
      derive_child_public_key n g ptBytes hmac fuel pair.public_key i := by
  cases h : derive_public_shift n g ptBytes hmac fuel pair.public_key i <;>
    simp [derive_child_key_pair, derive_child_public_key, combineShift, h]

/-- Witness for C4 at a concrete key pair satisfying the invariant. -/
theorem pub_secret_consistency_witness :
    (derive_child_key_pair 5 1 ptBytesA hmacA 1 pairA
        (.NonHardened ⟨5⟩)).map (fun kp => kp.public_key) =
      derive_child_public_key 5 1 ptBytesA hmacA 1 pairA.public_key ⟨5⟩ :=
  pub_secret_consistency 5 1 ptBytesA hmacA 1 pairA ⟨5⟩ (by decide)

/-- C5: every `ExtendedKeyPair` produced by the public API satisfies the
invariant `public_key = generator * secret_key` with equal chain codes:
`keyPairFrom` (the `From<ExtendedSecretKey>` impl) establishes it, and
`derive_child_key_pair` preserves it; moreover no accepted master or child
secret scalar is zero and no accepted child public key is the identity. -/
theorem keypair_invariants (n : Nat) (g : ZMod n)
    (ptBytes : ZMod n → List Nat)
    (hmac : List Nat → List Nat → List Nat) :
    (∀ sk : ExtendedSecretKey n, pairInvariant n g (keyPairFrom n g sk)) ∧
    (∀ fuel parent_key child_index child,
      pairInvariant n g parent_key →
      derive_child_key_pair n g ptBytes hmac fuel parent_key child_index =
        some child →
      pairInvariant n g child ∧ child.secret_key.secret_key ≠ 0 ∧
        child.public_key.public_key ≠ 0) ∧
    (∀ key fuel digest esk,
      masterLoop n hmac key fuel digest = some esk →
      esk.secret_key ≠ 0) := by
  refine ⟨?_, ?_, fun key fuel digest esk h =>
    masterLoop_some n hmac key fuel digest esk h⟩
  · intro sk
    exact ⟨rfl, rfl⟩
  · intro fuel parent_key child_index child hinv h
    have key : ∀ s : DerivedShift n,
        s.child_public_key.public_key =
            parent_key.public_key.public_key + g * s.shift →
          s.child_public_key.public_key ≠ 0 →
          child = combineShift n parent_key s →
          pairInvariant n g child ∧ child.secret_key.secret_key ≠ 0 ∧
            child.public_key.public_key ≠ 0 := by
      intro s hpk hnz hc
      subst hc
      have hgc : s.child_public_key.public_key =
          g * (parent_key.secret_key.secret_key + s.shift) := by
        rw [hpk, hinv.1, mul_add]
      refine ⟨⟨hgc, rfl⟩, ?_, hnz⟩
      intro h0
      apply hnz
      rw [hgc]
      simp only [combineShift] at h0
      rw [h0, mul_zero]
    cases child_index with
    | Hardened i =>
      cases hs : derive_hardened_shift n g hmac fuel parent_key i with
      | none => simp [derive_child_key_pair, hs] at h
      | some s =>
        simp only [derive_child_key_pair, hs, Option.some.injEq] at h
        simp only [derive_hardened_shift] at hs
        have hcs := calculate_shift_some n g hmac _ parent_key.public_key
          i.deref fuel _ s hs
        exact key s hcs.1 hcs.2 h.symm
    | NonHardened i =>
      cases hs : derive_public_shift n g ptBytes hmac fuel
          parent_key.public_key i with
      | none => simp [derive_child_key_pair, hs] at h
      | some s =>
        simp only [derive_child_key_pair, hs, Option.some.injEq] at h
        simp only [derive_public_shift] at hs
        have hcs := calculate_shift_some n g hmac _ parent_key.public_key
          i.deref fuel _ s hs
        exact key s hcs.1 hcs.2 h.symm

/-- Witness for C5: a concrete derivation whose child satisfies the
invariant with non-zero secret scalar and non-identity public key. -/
theorem keypair_invariants_witness :
    pairInvariant 5 1 childA ∧ childA.secret_key.secret_key ≠ 0 ∧
      childA.public_key.public_key ≠ 0 :=
  (keypair_invariants 5 1 ptBytesA hmacA).2.1 1 pairA
    (.NonHardened ⟨5⟩) childA (by decide) (by decide)

/-- C6: for every parent key pair and hardened index,
`derive_hardened_shift` uses the parent's chain code as the HMAC key and
the initial message `0x00 || be32(parent secret scalar) || be4(index)`,
then delegates to the shared shift loop with the parent's public key and
the raw index; the serializations have the stated byte widths. -/
theorem hardened_shift_structure (n : Nat) (g : ZMod n)
    (hmac : List Nat → List Nat → List Nat) (fuel : Nat)
    (parent_key : ExtendedKeyPair n) (i : HardenedIndex) :
    derive_hardened_shift n g hmac fuel parent_key i =
        calculate_shift n g hmac (chainCodeOf n parent_key)
          parent_key.public_key i.deref fuel
          (hmac (chainCodeOf n parent_key)
            (0x00 :: (toBeBytes 32 (parent_key.secret_key.secret_key).val ++
              toBeBytes 4 i.deref))) ∧
      chainCodeOf n parent_key = parent_key.public_key.chain_code ∧
      (∀ v : Nat, (toBeBytes 32 v).length = 32) ∧
      (∀ v : Nat, (toBeBytes 4 v).length = 4) := by
  refine ⟨rfl, rfl, ?_, ?_⟩ <;> intro v <;> simp [toBeBytes]

/-- C7: for every parent extended public key and non-hardened index,
`derive_public_shift` uses the parent's chain code as the HMAC key and the
initial message `compressed(parent public key) || be4(index)`, then
delegates to the shared shift loop with the same parent public key and the
raw index. -/
theorem public_shift_structure (n : Nat) (g : ZMod n)
    (ptBytes : ZMod n → List Nat)
    (hmac : List Nat → List Nat → List Nat) (fuel : Nat)
    (parent_public_key : ExtendedPublicKey n) (i : NonHardenedIndex) :
    derive_public_shift n g ptBytes hmac fuel parent_public_key i =
        calculate_shift n g hmac parent_public_key.chain_code
          parent_public_key i.deref fuel
          (hmac parent_public_key.chain_code
            (ptBytes parent_public_key.public_key ++ toBeBytes 4 i.deref)) ∧
      (∀ v : Nat, (toBeBytes 4 v).length = 4) := by
  refine ⟨rfl, ?_⟩
  intro v
  simp [toBeBytes]

/-- C8: `derive_master_key` returns `InvalidLength` exactly when the seed
length lies outside `[16, 64]`, and the check precedes any hashing: on a
bad length the result is the error for every HMAC instantiation, and on a
good length the result is `ok` for every HMAC instantiation. -/
theorem master_key_length_validation (n : Nat) (curve_type : CurveType)
    (seed : List Nat) (fuel : Nat) :
    (¬ (16 ≤ seed.length ∧ seed.length ≤ 64) →
      ∀ hmac, derive_master_key n hmac fuel curve_type seed =
        .error .invalidLength) ∧
    ((16 ≤ seed.length ∧ seed.length ≤ 64) →
      ∀ hmac, ∃ o, derive_master_key n hmac fuel curve_type seed =
        .ok o) := by
  constructor
  · intro h hmac
    simp [derive_master_key, h]
  · intro h hmac
    refine ⟨masterLoop n hmac (strBytes (curveKeyString curve_type)) fuel
      (hmac (strBytes (curveKeyString curve_type)) seed), ?_⟩
    simp [derive_master_key, h]

/-- Witness for C8 at seed lengths 15, 65, 16 and 64. -/
theorem master_key_length_validation_witness :
    derive_master_key 5 hmacA 1 CurveType.Secp256k1
        (List.replicate 15 0) = .error .invalidLength ∧
      derive_master_key 5 hmacA 1 CurveType.Secp256k1
        (List.replicate 65 0) = .error .invalidLength ∧
      (∃ o, derive_master_key 5 hmacA 1 CurveType.Secp256k1
        (List.replicate 16 0) = .ok o) ∧
      (∃ o, derive_master_key 5 hmacA 1 CurveType.Secp256k1
        (List.replicate 64 0) = .ok o) :=
  ⟨(master_key_length_validation 5 CurveType.Secp256k1
      (List.replicate 15 0) 1).1 (by decide) hmacA,
   (master_key_length_validation 5 CurveType.Secp256k1
      (List.replicate 65 0) 1).1 (by decide) hmacA,
   (master_key_length_validation 5 CurveType.Secp256k1
      (List.replicate 16 0) 1).2 (by decide) hmacA,
   (master_key_length_validation 5 CurveType.Secp256k1
      (List.replicate 64 0) 1).2 (by decide) hmacA⟩

/-- C9: for every `u32`, the infallible conversion to `ChildIndex` yields
the `Hardened` variant exactly when `2^31 ≤ v` and the `NonHardened`
variant exactly when `v < 2^31`; the fallible conversions into
`HardenedIndex` and `NonHardenedIndex` fail with `OutOfRange` exactly on
the complementary half; and the `MIN`/`MAX` constants are `2^31`,
`2^32 - 1`, `0` and `2^31 - 1`. -/
theorem index_classification (v : Nat) (_hv : v < 2 ^ 32) :
    ((∃ i, ChildIndex.ofU32 v = .Hardened i) ↔ 2 ^ 31 ≤ v) ∧
    ((∃ i, ChildIndex.ofU32 v = .NonHardened i) ↔ v < 2 ^ 31) ∧
    ((∃ i, HardenedIndex.tryFromU32 v = .ok i) ↔ 2 ^ 31 ≤ v) ∧
    (HardenedIndex.tryFromU32 v = .error .outOfRange ↔ v < 2 ^ 31) ∧
    ((∃ i, NonHardenedIndex.tryFromU32 v = .ok i) ↔ v < 2 ^ 31) ∧
    (NonHardenedIndex.tryFromU32 v = .error .outOfRange ↔ 2 ^ 31 ≤ v) ∧
    HardenedIndex.MIN.val = 2 ^ 31 ∧ HardenedIndex.MAX.val = 2 ^ 32 - 1 ∧
    NonHardenedIndex.MIN.val = 0 ∧
    NonHardenedIndex.MAX.val = 2 ^ 31 - 1 := by
  by_cases h : 2 ^ 31 ≤ v
  · have hn : (2147483648 : Nat) ≤ v := h
    have hn' : ¬ v < (2147483648 : Nat) := Nat.not_lt.mpr hn
    simp [ChildIndex.ofU32, HardenedIndex.tryFromU32,
      NonHardenedIndex.tryFromU32, hn, hn', HardenedIndex.MIN,
      HardenedIndex.MAX, NonHardenedIndex.MIN, NonHardenedIndex.MAX, H]
  · have hn : ¬ (2147483648 : Nat) ≤ v := h
    have hn' : v < (2147483648 : Nat) := Nat.not_le.mp hn
    simp [ChildIndex.ofU32, HardenedIndex.tryFromU32,
      NonHardenedIndex.tryFromU32, hn, hn', HardenedIndex.MIN,
      HardenedIndex.MAX, NonHardenedIndex.MIN, NonHardenedIndex.MAX, H]

/-- Witness for C9 at the boundary values `2^31` and `2^31 - 1`. -/
theorem index_classification_witness :
    (∃ i, HardenedIndex.tryFromU32 (2 ^ 31) = .ok i) ∧
      (∃ i, NonHardenedIndex.tryFromU32 (2 ^ 31 - 1) = .ok i) :=
  ⟨((index_classification (2 ^ 31) (by decide)).2.2.1).mpr (by decide),
   ((index_classification (2 ^ 31 - 1) (by decide)).2.2.2.2.1).mpr
     (by decide)⟩

/-- C10: converting a `u32` into a `ChildIndex` and dereferencing yields
the value unchanged (hardened values stored as-is, no offset removed), and
whenever the fallible conversions succeed, the wrapped value dereferences
back to the input. -/
theorem index_roundtrip (v : Nat) :
    (ChildIndex.ofU32 v).deref = v ∧
    (∀ i, HardenedIndex.tryFromU32 v = .ok i → i.deref = v) ∧
    (∀ i, NonHardenedIndex.tryFromU32 v = .ok i → i.deref = v) := by
  by_cases h : H ≤ v
  · refine ⟨?_, ?_, ?_⟩
    · simp [ChildIndex.ofU32, ChildIndex.deref, HardenedIndex.deref, h]
    · intro i hi
      cases i with
      | mk w =>
        simp [HardenedIndex.tryFromU32, ChildIndex.ofU32, h,
          HardenedIndex.deref] at hi ⊢
        omega
    · intro i hi
      simp [NonHardenedIndex.tryFromU32, ChildIndex.ofU32, h] at hi
  · refine ⟨?_, ?_, ?_⟩
    · simp [ChildIndex.ofU32, ChildIndex.deref, NonHardenedIndex.deref, h]
    · intro i hi
      simp [HardenedIndex.tryFromU32, ChildIndex.ofU32, h] at hi
    · intro i hi
      cases i with
      | mk w =>
        simp [NonHardenedIndex.tryFromU32, ChildIndex.ofU32, h,
          NonHardenedIndex.deref] at hi ⊢
        omega

/-- Witness for C10 at a hardened boundary value and at zero. -/
theorem index_roundtrip_witness :
    HardenedIndex.deref ⟨2 ^ 31⟩ = 2 ^ 31 ∧
      (ChildIndex.ofU32 0).deref = 0 :=
  ⟨(index_roundtrip (2 ^ 31)).2.1 ⟨2 ^ 31⟩ rfl, (index_roundtrip 0).1⟩

end Slip10
